import Mathlib

/-!
Verification of the resilient ingestion pipeline of the
`spr-based-on-qdrant-and-splade` repository: the order-preserving document
encoder with its shared vocabulary cache (`src/encode.py`) and the batched
writer with bounded retry and exponential backoff (`src/batch_upsert.py`).

The embedding is shallow: Python dictionaries of token weights become
association lists, the abstract model call (`encoder.encode` followed by
`encoder.to_sparse`, assumed side-effect-free and yielding one sparse map
per input text in order, per the spec's external-interface contract) becomes
a total function `String → List (String × ℚ)`, float weights become `ℚ`
(Python float doubling, the only arithmetic performed on them, is exact),
raised exceptions become `Except.error` or `Option.none`, and the thread
pool's nondeterministic completion order becomes an explicit
`completion_order` parameter listing chunk indices in the order their
futures are yielded by `as_completed`.
-/

namespace SpladeQdrant

/-- Sparse vector of parallel index/value arrays, as in
`qdrant_client.models.SparseVector`. -/
structure SparseVector where
  indices : List Nat
  values : List ℚ
deriving DecidableEq

/-- Payload of a point: the original text plus the optional `"error"` key
(`"no_valid_tokens"`) set when a document had no token in the vocabulary.
Mirrors the dictionaries `{"text": doc}` and
`{"text": doc, "error": "no_valid_tokens"}` built in `_sparse_vector_to_point`. -/
structure Payload where
  text : String
  error : Option String
deriving DecidableEq

/-- Qdrant point as built by `_sparse_vector_to_point`: an id, a payload and
the sparse vector (the single fixed vector name `"text-sparse"` is elided). -/
structure PointStruct where
  id : Nat
  payload : Payload
  vector : SparseVector
deriving DecidableEq

/-- Configuration for document encoding operations (`EncodingConfig` in
`src/encode.py`), with the source's defaults. -/
structure EncodingConfig where
  batch_size : Nat := 1000
  max_workers : Option Nat := none
  use_parallel : Bool := true
  parallel_threshold : Nat := 100
  timeout_seconds : ℚ := 300
  retry_attempts : Nat := 3
deriving DecidableEq

/-- `_sparse_vector_to_point` from `src/encode.py`: walk the sparse map in
order, skip tokens absent from `token2id` (the vocabulary dictionary,
modelled as a lookup function), append the id and the float weight of the
present ones; if no index survives, emit the point with empty arrays and the
`no_valid_tokens` error marker in the payload. The function body's
`try/except` re-raise cannot fire here since every operation is total. -/
def _sparse_vector_to_point (doc : String) (sparse_vector : List (String × ℚ))
    (token2id : String → Option Nat) (doc_id : Nat) : PointStruct :=
  let iv := sparse_vector.foldl
    (fun (acc : List Nat × List ℚ) tw =>
      match token2id tw.1 with
      | none => acc
      | some tid => (acc.1 ++ [tid], acc.2 ++ [tw.2]))
    ([], [])
  if iv.1.isEmpty then
    { id := doc_id, payload := { text := doc, error := some "no_valid_tokens" },
      vector := { indices := [], values := [] } }
  else
    { id := doc_id, payload := { text := doc, error := none },
      vector := { indices := iv.1, values := iv.2 } }

/-- `_encode_batch_documents` from `src/encode.py`: the loop
`for i, (doc, sparse_vector) in enumerate(zip(docs, sparse_vectors))` with
`sparse_vectors` the model's one-map-per-document output, converting each
document at id `id_offset + i`. The running id is carried as an accumulator;
the per-document `except: continue` never fires because
`_sparse_vector_to_point` is total here, so no document is dropped. -/
def _encode_batch_documents (model : String → List (String × ℚ))
    (token2id : String → Option Nat) :
    List String → Nat → List PointStruct
  | [], _ => []
  | d :: ds, id_offset =>
      _sparse_vector_to_point d (model d) token2id id_offset ::
        _encode_batch_documents model token2id ds (id_offset + 1)

/-- Worker count chosen by the parallel path of `encode_documents2points`:
`config.max_workers or min(4, cpu_count())` (Python `or` falls through on the
falsy `0` as well as on `None`). -/
def encode_num_workers (cpu_count : Nat) (config : EncodingConfig) : Nat :=
  match config.max_workers with
  | some w => if w = 0 then min 4 cpu_count else w
  | none => min 4 cpu_count

/-- Chunk size of the parallel path:
`max(1, len(docs) // (num_workers * 2))`. -/
def encode_chunk_size (cpu_count : Nat) (docs_len : Nat) (config : EncodingConfig) : Nat :=
  max 1 (docs_len / (encode_num_workers cpu_count config * 2))

/-- Number of chunks produced by `range(0, len(docs), chunk_size)`. -/
def encode_num_chunks (cpu_count : Nat) (docs_len : Nat) (config : EncodingConfig) : Nat :=
  (docs_len + encode_chunk_size cpu_count docs_len config - 1) /
    encode_chunk_size cpu_count docs_len config

/-- First-match association-list lookup standing for the Python dictionary
`points_dict` (under the distinct keys actually produced the two agree). -/
def dictLookup (l : List (Nat × List PointStruct)) (k : Nat) : List PointStruct :=
  match l with
  | [] => []
  | kv :: rest => if kv.1 = k then kv.2 else dictLookup rest k

/-- The chunk list of the parallel path:
`chunks = [(docs[i:i + chunk_size], i) for i in range(0, len(docs), chunk_size)]`,
each chunk paired with its starting offset. -/
def encode_chunks (docs : List String) (chunk_size num_chunks : Nat) :
    List (List String × Nat) :=
  (List.range' 0 num_chunks chunk_size).map
    (fun i => ((docs.drop i).take chunk_size, i))

/-- The points a worker computes for chunk `chunk_idx`:
`_encode_batch_documents(encoder, chunk_docs, token2id, chunk_offset)`,
i.e. the value stored into `points_dict[chunk_idx]` when that chunk's
future completes. -/
def chunk_result (model : String → List (String × ℚ))
    (token2id : String → Option Nat) (docs : List String)
    (chunk_size num_chunks chunk_idx : Nat) : List PointStruct :=
  match (encode_chunks docs chunk_size num_chunks)[chunk_idx]? with
  | some c => _encode_batch_documents model token2id c.1 c.2
  | none => []

/-- Reassembly of the parallel results:
`for chunk_idx in sorted(points_dict.keys()): points.extend(points_dict[chunk_idx])`. -/
def parallel_reassemble (points_dict : List (Nat × List PointStruct)) :
    List PointStruct :=
  (((points_dict.map Prod.fst).mergeSort (· ≤ ·)).map
    (fun k => dictLookup points_dict k)).flatten

/-- `encode_documents2points` from `src/encode.py`. The vocabulary table is
the one resolved once through the cache (modelled separately below) and is
passed in resolved form. An empty input returns `[]` with a warning. The
parallel path chunks the input with `range(0, len(docs), chunk_size)`, tags
each chunk with its starting offset, fills `points_dict[chunk_idx]` in the
order futures complete (`completion_order`), then concatenates the chunks'
points over `sorted(points_dict.keys())`. The timeout/failure fallback to
sequential re-encoding is unreachable here because the abstract model call
is total. `Except.error` stands for a raised exception; no branch of this
function raises. -/
def encode_documents2points (model : String → List (String × ℚ))
    (token2id : String → Option Nat) (cpu_count : Nat) (docs : List String)
    (config : EncodingConfig) (completion_order : List Nat) :
    Except String (List PointStruct) :=
  if docs.isEmpty then
    .ok []
  else
    let should_parallelize : Bool :=
      config.use_parallel && decide (config.parallel_threshold < docs.length)
        && config.max_workers.isSome
    if !should_parallelize || decide (docs.length ≤ config.parallel_threshold) then
      .ok (_encode_batch_documents model token2id docs 0)
    else
      .ok (parallel_reassemble (completion_order.map
        (fun chunk_idx =>
          (chunk_idx,
            chunk_result model token2id docs
              (encode_chunk_size cpu_count docs.length config)
              (encode_num_chunks cpu_count docs.length config) chunk_idx))))

/-- Whether `s.strip()` is falsy in Python, i.e. every character of `s` is
whitespace (stripping leading and trailing whitespace then leaves the empty
string). -/
def strip_is_empty (s : String) : Bool :=
  s.data.all Char.isWhitespace

/-- `encode_query2vector` from `src/encode.py`: reject an empty or
whitespace-only query (`not query or not query.strip()`) with the
`ValueError("Query cannot be empty")`; otherwise run the same
skip-unknown-token loop as `_sparse_vector_to_point` over the model's sparse
map for the query and return the sparse vector. -/
def encode_query2vector (model : String → List (String × ℚ))
    (token2id : String → Option Nat) (query : String) :
    Except String SparseVector :=
  if query = "" || strip_is_empty query then
    .error "Query cannot be empty"
  else
    let query_sparse_vector := model query
    let iv := query_sparse_vector.foldl
      (fun (acc : List Nat × List ℚ) tw =>
        match token2id tw.1 with
        | none => acc
        | some tid => (acc.1 ++ [tid], acc.2 ++ [tw.2]))
      ([], [])
    .ok { indices := iv.1, values := iv.2 }

/-- State of the process-wide vocabulary cache of `src/encode.py`: the
dictionary `_token2id_cache` (an association list here) together with the
log of loader invocations (`tokenizer.get_vocab()` calls), one entry per
invocation recording which model identifier triggered it. -/
structure CacheState (τ : Type) where
  cache : List (String × τ)
  loads : List String

/-- First-match lookup in the cache association list, standing for
`model_path in _token2id_cache` / `_token2id_cache[model_path]` (keys are
inserted at most once, so first-match agrees with the dictionary). -/
def lookupCache {τ : Type} : List (String × τ) → String → Option τ
  | [], _ => none
  | kv :: rest, m => if kv.1 = m then some kv.2 else lookupCache rest m

/-- `get_cached_token2id` from `src/encode.py` as one atomic step on the
cache state: the source holds `_cache_lock` across the whole
check-and-populate-and-read body (`with _cache_lock:`), so each call runs
without interleaving and a concurrent history is some sequential order of
atomic calls. `loader k` is the value returned by the k-th
`tokenizer.get_vocab()` invocation (successive invocations may return
different objects; nothing forces them equal). -/
def get_cached_token2id {τ : Type} (loader : Nat → τ) (model_path : String)
    (s : CacheState τ) : τ × CacheState τ :=
  match lookupCache s.cache model_path with
  | some t => (t, s)
  | none =>
      let t := loader s.loads.length
      (t, ⟨(model_path, t) :: s.cache, s.loads ++ [model_path]⟩)

/-- A sequential history of `get_cached_token2id` calls (any interleaving of
concurrent callers, serialized by the lock): returns the value each call
received, in order, together with the final cache state. -/
def runCalls {τ : Type} (loader : Nat → τ) :
    List String → CacheState τ → List τ × CacheState τ
  | [], s => ([], s)
  | m :: ms, s =>
      let r := get_cached_token2id loader m s
      let rest := runCalls loader ms r.2
      (r.1 :: rest.1, rest.2)

/-- Configuration for batch upsert operations (`BatchUpsertConfig` in
`src/batch_upsert.py`), with the source's defaults. The float
`retry_delay_seconds` is modelled as `ℚ`; the only arithmetic applied to it
is doubling, which is exact on floats. -/
structure BatchUpsertConfig where
  batch_size : Nat := 100
  max_retries : Nat := 3
  retry_delay_seconds : ℚ := 1
  timeout_seconds : ℚ := 30
deriving DecidableEq

/-- Observable behaviour of one `_upsert_batch_with_retry` call: the
durations slept (in order), the number of `client.upsert` calls made, and
the returned value — `none` when the Python function falls off the end of
its `for` loop and implicitly returns `None`. -/
structure RetryTrace where
  sleeps : List ℚ
  calls : Nat
  result : Option Nat
deriving DecidableEq

/-- The loop `for attempt in range(1, config.max_retries + 1)` of
`_upsert_batch_with_retry`, recursing on the number of remaining iterations
(`remaining = max_retries - attempt + 1` at entry). `succ attempt` tells
whether the `client.upsert` call of that attempt succeeds (the source
catches every `Exception` alike, with no transient/permanent distinction).
On success the attempt returns `len(batch)`; on failure of the last attempt
it returns `0`; otherwise it sleeps `delay` and doubles it. -/
def retryLoopGo (succ : Nat → Bool) (batch_len : Nat) :
    Nat → Nat → ℚ → RetryTrace
  | _, 0, _ => ⟨[], 0, none⟩
  | attempt, remaining + 1, delay =>
      if succ attempt then ⟨[], 1, some batch_len⟩
      else if remaining = 0 then ⟨[], 1, some 0⟩
      else
        let t := retryLoopGo succ batch_len (attempt + 1) remaining (delay * 2)
        ⟨delay :: t.sleeps, t.calls + 1, t.result⟩

/-- `_upsert_batch_with_retry` from `src/batch_upsert.py`: run the attempt
loop starting at attempt 1 with `delay = config.retry_delay_seconds`. -/
def _upsert_batch_with_retry {α : Type} (succ : Nat → Bool) (batch : List α)
    (config : BatchUpsertConfig) : RetryTrace :=
  retryLoopGo succ batch.length 1 config.max_retries config.retry_delay_seconds

/-- The sequence of `batch = points[batch_start:batch_end]` slices computed
by the loop of `upsert_points_batched` (`batch_end` is clamped to
`len(points)`, as `take` clamps). -/
def writerBatches {α : Type} (points : List α) (batch_size : Nat) : List (List α) :=
  (List.range ((points.length + batch_size - 1) / batch_size)).map
    (fun batch_idx => (points.drop (batch_idx * batch_size)).take batch_size)

/-- `upsert_points_batched` from `src/batch_upsert.py`: empty input returns
0; otherwise `num_batches = (len(points) + batch_size - 1) // batch_size`
slices are processed in order, `total_upserted += upserted` accumulating the
helper's return value. A `None` from the helper makes the `+=` raise
`TypeError`; the raise is modelled by the accumulator becoming (and
staying) `none`. `succ b a` tells whether attempt `a` on batch `b`
succeeds. -/
def upsert_points_batched {α : Type} (succ : Nat → Nat → Bool)
    (points : List α) (config : BatchUpsertConfig) : Option Nat :=
  if points.isEmpty then
    some 0
  else
    let num_batches := (points.length + config.batch_size - 1) / config.batch_size
    (List.range num_batches).foldl
      (fun total batch_idx =>
        match total,
            (_upsert_batch_with_retry (succ batch_idx)
              ((points.drop (batch_idx * config.batch_size)).take config.batch_size)
              config).result with
        | some t, some u => some (t + u)
        | _, _ => none)
      (some 0)

/-- Whether some attempt in `1..max_retries` on batch `batch_idx` succeeds:
exactly the condition under which `_upsert_batch_with_retry` returns
`len(batch)`. -/
def batchSucceeds (succ : Nat → Nat → Bool) (config : BatchUpsertConfig)
    (batch_idx : Nat) : Bool :=
  (List.range config.max_retries).any (fun j => succ batch_idx (j + 1))

section EncodeLemmas

variable (model : String → List (String × ℚ)) (token2id : String → Option Nat)

lemma encBatch_length : ∀ (docs : List String) (off : Nat),
    (_encode_batch_documents model token2id docs off).length = docs.length := by
  intro docs
  induction docs with
  | nil => intro off; rfl
  | cons d ds ih => intro off; simp [_encode_batch_documents, ih]

lemma encBatch_getElem? : ∀ (docs : List String) (off i : Nat),
    (_encode_batch_documents model token2id docs off)[i]? =
      docs[i]?.map (fun d => _sparse_vector_to_point d (model d) token2id (off + i)) := by
  intro docs
  induction docs with
  | nil => intro off i; rfl
  | cons d ds ih =>
    intro off i
    cases i with
    | zero => simp [_encode_batch_documents]
    | succ j =>
      simp only [_encode_batch_documents, List.getElem?_cons_succ, ih]
      have h : off + 1 + j = off + (j + 1) := by omega
      rw [h]

lemma encBatch_append : ∀ (a b : List String) (off : Nat),
    _encode_batch_documents model token2id (a ++ b) off =
      _encode_batch_documents model token2id a off ++
        _encode_batch_documents model token2id b (off + a.length) := by
  intro a
  induction a with
  | nil => intro b off; simp [_encode_batch_documents]
  | cons d ds ih =>
    intro b off
    have h : off + 1 + ds.length = off + (ds.length + 1) := by omega
    have e : ds.append b = ds ++ b := rfl
    simp only [List.cons_append, _encode_batch_documents, List.length_cons]
    rw [e, ih, h]

lemma ceil_div_succ (n cs : Nat) (hn : 1 ≤ n) (hcs : 0 < cs) :
    (n + cs - 1) / cs = (n - cs + cs - 1) / cs + 1 := by
  rcases Nat.le_total n cs with h | h
  · have hL : (n + cs - 1) / cs = 1 := by
      have h2 : n + cs - 1 = (n - 1) + cs := by omega
      rw [h2, Nat.add_div_right _ hcs, Nat.div_eq_of_lt (by omega)]
    have hR : (n - cs + cs - 1) / cs = 0 := by
      have h1 : n - cs = 0 := by omega
      rw [h1]
      exact Nat.div_eq_of_lt (by omega)
    omega
  · have h2 : n + cs - 1 = (n - cs + cs - 1) + cs := by omega
    rw [h2, Nat.add_div_right _ hcs]

lemma encBatch_chunks_flatten :
    ∀ (n : Nat) (l : List String), l.length = n → ∀ (cs off : Nat), 0 < cs →
      ((List.range ((l.length + cs - 1) / cs)).map
        (fun i => _encode_batch_documents model token2id
          ((l.drop (cs * i)).take cs) (off + cs * i))).flatten
      = _encode_batch_documents model token2id l off := by
  intro n
  induction n using Nat.strong_induction_on with
  | _ n ih =>
    intro l hl cs off hcs
    rcases Nat.eq_zero_or_pos n with hn | hn
    · subst hn
      have hnil : l = [] := List.length_eq_zero.mp hl
      subst hnil
      have hdiv : (([] : List String).length + cs - 1) / cs = 0 := by
        simp only [List.length_nil]
        exact Nat.div_eq_of_lt (by omega)
      rw [hdiv]
      simp [_encode_batch_documents]
    · have hk : (l.length + cs - 1) / cs = ((l.drop cs).length + cs - 1) / cs + 1 := by
        rw [List.length_drop]
        exact ceil_div_succ l.length cs (by omega) hcs
      rw [hk, List.range_succ_eq_map]
      simp only [List.map_cons, List.flatten_cons, List.map_map]
      have hmaps : (List.range (((l.drop cs).length + cs - 1) / cs)).map
          ((fun i => _encode_batch_documents model token2id
            ((l.drop (cs * i)).take cs) (off + cs * i)) ∘ Nat.succ)
          = (List.range (((l.drop cs).length + cs - 1) / cs)).map
            (fun i => _encode_batch_documents model token2id
              (((l.drop cs).drop (cs * i)).take cs) ((off + cs) + cs * i)) := by
        apply List.map_congr_left
        intro j _
        simp only [Function.comp_apply]
        have harg : cs + cs * j = cs * Nat.succ j := by
          rw [Nat.mul_succ]; omega
        have hd : (l.drop cs).drop (cs * j) = l.drop (cs * Nat.succ j) := by
          rw [List.drop_drop, harg]
        have ho : off + cs * Nat.succ j = (off + cs) + cs * j := by
          rw [Nat.mul_succ]; omega
        rw [hd, ho]
      rw [hmaps, ih (l.drop cs).length (by rw [List.length_drop]; omega) (l.drop cs) rfl
        cs (off + cs) hcs]
      have hz : cs * 0 = 0 := by ring
      rw [hz, List.drop_zero, Nat.add_zero]
      rcases Nat.le_total l.length cs with hle | hle
      · rw [List.take_of_length_le hle, List.drop_eq_nil_of_le hle]
        simp [_encode_batch_documents]
      · conv_rhs => rw [← List.take_append_drop cs l]
        rw [encBatch_append]
        congr 2
        rw [List.length_take]
        omega

lemma dictLookup_map (v : Nat → List PointStruct) :
    ∀ (l : List Nat) (k : Nat), k ∈ l →
      dictLookup (l.map (fun i => (i, v i))) k = v k := by
  intro l
  induction l with
  | nil => intro k hk; cases hk
  | cons i is ih =>
    intro k hk
    simp only [List.map_cons, dictLookup]
    by_cases h : i = k
    · subst h; simp
    · rw [if_neg h]
      rcases List.mem_cons.mp hk with h1 | h1
      · exact absurd h1.symm h
      · exact ih k h1

lemma mergeSort_range (order : List Nat) (k : Nat)
    (hperm : order.Perm (List.range k)) :
    order.mergeSort (· ≤ ·) = List.range k := by
  apply @List.eq_of_perm_of_sorted Nat (fun a b : Nat => a ≤ b) _ _ _
  · exact (List.mergeSort_perm order _).trans hperm
  · have h := @List.sorted_mergeSort Nat (fun a b : Nat => decide (a ≤ b))
      (by intro a b c hab hbc; simp only [decide_eq_true_eq] at *; omega)
      (by intro a b; simp only [Bool.or_eq_true, decide_eq_true_eq]; omega) order
    exact List.Pairwise.imp (by intro a b hab; simpa using hab) h
  · exact List.pairwise_le_range k

lemma parallel_reassemble_eq (v : Nat → List PointStruct) (order : List Nat)
    (k : Nat) (hperm : order.Perm (List.range k)) :
    parallel_reassemble (order.map (fun i => (i, v i)))
      = ((List.range k).map v).flatten := by
  unfold parallel_reassemble
  have hkeys : (order.map (fun i => (i, v i))).map Prod.fst = order := by
    simp [List.map_map, Function.comp_def]
  rw [hkeys, mergeSort_range order k hperm]
  congr 1
  apply List.map_congr_left
  intro key hkey
  exact dictLookup_map v order key (hperm.mem_iff.mpr hkey)

lemma chunk_result_eq (docs : List String) (cs k i : Nat) (hi : i < k) :
    chunk_result model token2id docs cs k i
      = _encode_batch_documents model token2id
          ((docs.drop (cs * i)).take cs) (cs * i) := by
  unfold chunk_result encode_chunks
  rw [List.getElem?_map, List.getElem?_range' _ _ hi]
  simp

lemma chunk_size_pos (cpu_count docs_len : Nat) (config : EncodingConfig) :
    0 < encode_chunk_size cpu_count docs_len config :=
  Nat.lt_of_lt_of_le Nat.zero_lt_one (le_max_left _ _)

lemma encode_eq_sequential (cpu_count : Nat) (docs : List String)
    (config : EncodingConfig) (completion_order : List Nat)
    (hperm : completion_order.Perm
      (List.range (encode_num_chunks cpu_count docs.length config))) :
    encode_documents2points model token2id cpu_count docs config completion_order
      = Except.ok (_encode_batch_documents model token2id docs 0) := by
  rw [encode_documents2points]
  by_cases hemp : docs.isEmpty
  · rw [if_pos hemp]
    rw [List.isEmpty_iff.mp hemp]
    rfl
  · rw [if_neg hemp]
    by_cases hseq : (!(config.use_parallel
        && decide (config.parallel_threshold < docs.length)
        && config.max_workers.isSome)
        || decide (docs.length ≤ config.parallel_threshold)) = true
    · rw [if_pos hseq]
    · rw [if_neg hseq]
      congr 1
      rw [parallel_reassemble_eq
        (chunk_result model token2id docs
          (encode_chunk_size cpu_count docs.length config)
          (encode_num_chunks cpu_count docs.length config))
        completion_order (encode_num_chunks cpu_count docs.length config) hperm]
      have hv : (List.range (encode_num_chunks cpu_count docs.length config)).map
          (chunk_result model token2id docs
            (encode_chunk_size cpu_count docs.length config)
            (encode_num_chunks cpu_count docs.length config))
          = (List.range (encode_num_chunks cpu_count docs.length config)).map
            (fun i => _encode_batch_documents model token2id
              ((docs.drop (encode_chunk_size cpu_count docs.length config * i)).take
                (encode_chunk_size cpu_count docs.length config))
              (0 + encode_chunk_size cpu_count docs.length config * i)) := by
        apply List.map_congr_left
        intro i hi
        rw [chunk_result_eq model token2id docs _ _ i (List.mem_range.mp hi),
          Nat.zero_add]
      rw [hv]
      exact encBatch_chunks_flatten model token2id docs.length docs rfl
        (encode_chunk_size cpu_count docs.length config) 0
        (chunk_size_pos cpu_count docs.length config)

end EncodeLemmas

section SparsePointLemmas

lemma tokenFold_eq (token2id : String → Option Nat) :
    ∀ (sv : List (String × ℚ)) (acc : List Nat × List ℚ),
      sv.foldl
        (fun (acc : List Nat × List ℚ) tw =>
          match token2id tw.1 with
          | none => acc
          | some tid => (acc.1 ++ [tid], acc.2 ++ [tw.2]))
        acc
      = (acc.1 ++ (sv.filter (fun tw => (token2id tw.1).isSome)).map
            (fun tw => (token2id tw.1).getD 0),
         acc.2 ++ (sv.filter (fun tw => (token2id tw.1).isSome)).map
            (fun tw => tw.2)) := by
  intro sv
  induction sv with
  | nil => intro acc; simp
  | cons tw tws ih =>
    intro acc
    simp only [List.foldl_cons, List.filter_cons]
    cases h : token2id tw.1 with
    | none => simp [h, ih]
    | some tid => simp [h, ih, List.append_assoc]

lemma sparse_point_eq (doc : String) (sv : List (String × ℚ))
    (token2id : String → Option Nat) (doc_id : Nat) :
    _sparse_vector_to_point doc sv token2id doc_id =
      (if ((sv.filter (fun tw => (token2id tw.1).isSome)).map
            (fun tw => (token2id tw.1).getD 0)).isEmpty then
        { id := doc_id, payload := { text := doc, error := some "no_valid_tokens" },
          vector := { indices := [], values := [] } }
      else
        { id := doc_id, payload := { text := doc, error := none },
          vector :=
            { indices :=
                ((sv.filter (fun tw => (token2id tw.1).isSome)).map
                  (fun tw => (token2id tw.1).getD 0)),
              values :=
                ((sv.filter (fun tw => (token2id tw.1).isSome)).map
                  (fun tw => tw.2)) } }) := by
  unfold _sparse_vector_to_point
  rw [tokenFold_eq]
  simp

lemma sparse_point_id (doc : String) (sv : List (String × ℚ))
    (token2id : String → Option Nat) (doc_id : Nat) :
    (_sparse_vector_to_point doc sv token2id doc_id).id = doc_id := by
  rw [sparse_point_eq]
  split <;> rfl

lemma sparse_point_text (doc : String) (sv : List (String × ℚ))
    (token2id : String → Option Nat) (doc_id : Nat) :
    (_sparse_vector_to_point doc sv token2id doc_id).payload.text = doc := by
  rw [sparse_point_eq]
  split <;> rfl

lemma sparse_point_indices (doc : String) (sv : List (String × ℚ))
    (token2id : String → Option Nat) (doc_id : Nat) :
    (_sparse_vector_to_point doc sv token2id doc_id).vector.indices
      = (sv.filter (fun tw => (token2id tw.1).isSome)).map
          (fun tw => (token2id tw.1).getD 0) := by
  rw [sparse_point_eq]
  by_cases h : ((sv.filter (fun tw => (token2id tw.1).isSome)).map
      (fun tw => (token2id tw.1).getD 0)).isEmpty
  · rw [if_pos h]
    rw [List.isEmpty_eq_true.mp h]
  · rw [if_neg h]

lemma sparse_point_values (doc : String) (sv : List (String × ℚ))
    (token2id : String → Option Nat) (doc_id : Nat) :
    (_sparse_vector_to_point doc sv token2id doc_id).vector.values
      = (sv.filter (fun tw => (token2id tw.1).isSome)).map (fun tw => tw.2) := by
  rw [sparse_point_eq]
  by_cases h : ((sv.filter (fun tw => (token2id tw.1).isSome)).map
      (fun tw => (token2id tw.1).getD 0)).isEmpty
  · rw [if_pos h]
    have hf : sv.filter (fun tw => (token2id tw.1).isSome) = [] :=
      List.map_eq_nil_iff.mp (List.isEmpty_eq_true.mp h)
    rw [hf]
    rfl
  · rw [if_neg h]

lemma sparse_point_no_valid_tokens (doc : String) (sv : List (String × ℚ))
    (token2id : String → Option Nat) (doc_id : Nat)
    (h : ∀ tw ∈ sv, token2id tw.1 = none) :
    (_sparse_vector_to_point doc sv token2id doc_id).payload.error
      = some "no_valid_tokens" := by
  have hf : sv.filter (fun tw => (token2id tw.1).isSome) = [] := by
    rw [List.filter_eq_nil_iff]
    intro tw htw
    rw [h tw htw]
    simp
  rw [sparse_point_eq, hf]
  simp

end SparsePointLemmas

/-- C1: for every input document list and every encoding configuration under
which encoding completes (sequential or parallel path; `completion_order`
ranges over every possible order in which the chunk futures can complete),
`encode_documents2points` returns exactly one record per input document, in
input order: the record at index `i` has payload text `documents[i]` and id
`i`, and a document whose entire sparse output reduces to empty (every token
unknown to the vocabulary) is still emitted, with empty indices/values and
the `no_valid_tokens` marker, preserving input/output index alignment. -/
theorem c1_encode_order_preservation
    (model : String → List (String × ℚ)) (token2id : String → Option Nat)
    (cpu_count : Nat) (docs : List String) (config : EncodingConfig)
    (completion_order : List Nat)
    (hperm : completion_order.Perm
      (List.range (encode_num_chunks cpu_count docs.length config))) :
    encode_documents2points model token2id cpu_count docs config completion_order
      = Except.ok (_encode_batch_documents model token2id docs 0) ∧
    (_encode_batch_documents model token2id docs 0).length = docs.length ∧
    ∀ i d, docs[i]? = some d →
      (_encode_batch_documents model token2id docs 0)[i]?
          = some (_sparse_vector_to_point d (model d) token2id i) ∧
        (_sparse_vector_to_point d (model d) token2id i).id = i ∧
        (_sparse_vector_to_point d (model d) token2id i).payload.text = d ∧
        ((∀ tw ∈ model d, token2id tw.1 = none) →
          (_sparse_vector_to_point d (model d) token2id i).vector.indices = [] ∧
          (_sparse_vector_to_point d (model d) token2id i).vector.values = [] ∧
          (_sparse_vector_to_point d (model d) token2id i).payload.error
            = some "no_valid_tokens") := by
  refine ⟨encode_eq_sequential model token2id cpu_count docs config
    completion_order hperm, encBatch_length model token2id docs 0, ?_⟩
  intro i d hd
  have hget := encBatch_getElem? model token2id docs 0 i
  rw [hd] at hget
  simp only [Option.map_some, Nat.zero_add] at hget
  refine ⟨hget, sparse_point_id d (model d) token2id i,
    sparse_point_text d (model d) token2id i, ?_⟩
  intro hall
  have hf : (model d).filter (fun tw => (token2id tw.1).isSome) = [] := by
    rw [List.filter_eq_nil_iff]
    intro tw htw
    rw [hall tw htw]
    simp
  refine ⟨?_, ?_, sparse_point_no_valid_tokens d (model d) token2id i hall⟩
  · rw [sparse_point_indices, hf]
    rfl
  · rw [sparse_point_values, hf]
    rfl

/-- Witness for C1 at a concrete parallel configuration: three documents,
one worker, threshold 1 (so the parallel path runs, with three chunks of one
document each) and futures completing out of order as `[2, 0, 1]`. -/
theorem c1_encode_order_witness :
    encode_documents2points (fun s => [(s, (1 : ℚ))])
        (fun s => if s = "a" then some 0 else none) 4 ["a", "b", "c"]
        { max_workers := some 1, parallel_threshold := 1 } [2, 0, 1]
      = Except.ok (_encode_batch_documents (fun s => [(s, (1 : ℚ))])
          (fun s => if s = "a" then some 0 else none) ["a", "b", "c"] 0) ∧
    (_encode_batch_documents (fun s => [(s, (1 : ℚ))])
        (fun s => if s = "a" then some 0 else none) ["a", "b", "c"] 0)[1]?
      = some (_sparse_vector_to_point "b" [("b", (1 : ℚ))]
          (fun s => if s = "a" then some 0 else none) 1) := by
  have h := c1_encode_order_preservation (fun s => [(s, (1 : ℚ))])
    (fun s => if s = "a" then some 0 else none) 4 ["a", "b", "c"]
    { max_workers := some 1, parallel_threshold := 1 } [2, 0, 1] (by decide)
  exact ⟨h.1, (h.2.2 1 "b" rfl).1⟩

/-- C9: with `max_workers = None` (the default), `encode_documents2points`
never takes the parallel path: for every document list — even when
`use_parallel` is true and the document count exceeds `parallel_threshold` —
the result is the sequential encoding, because `should_parallelize`
additionally requires `config.max_workers is not None`. -/
theorem c9_default_max_workers_sequential
    (model : String → List (String × ℚ)) (token2id : String → Option Nat)
    (cpu_count : Nat) (docs : List String) (config : EncodingConfig)
    (completion_order : List Nat) (h : config.max_workers = none) :
    encode_documents2points model token2id cpu_count docs config completion_order
      = Except.ok (_encode_batch_documents model token2id docs 0) := by
  rw [encode_documents2points]
  by_cases hemp : docs.isEmpty
  · rw [if_pos hemp, List.isEmpty_iff.mp hemp]
    rfl
  · rw [if_neg hemp]
    have hc : (!(config.use_parallel
        && decide (config.parallel_threshold < docs.length)
        && config.max_workers.isSome)
        || decide (docs.length ≤ config.parallel_threshold)) = true := by
      rw [h]
      simp
    rw [if_pos hc]

/-- Witness for C9: `use_parallel` is true and three documents exceed the
threshold 1, yet with the default `max_workers = none` the sequential result
is returned. -/
theorem c9_default_max_workers_witness :
    encode_documents2points (fun s => [(s, (1 : ℚ))]) (fun _ => some 0) 4
        ["a", "b", "c"] { parallel_threshold := 1 } [0]
      = Except.ok (_encode_batch_documents (fun s => [(s, (1 : ℚ))])
          (fun _ => some 0) ["a", "b", "c"] 0) :=
  c9_default_max_workers_sequential (fun s => [(s, (1 : ℚ))]) (fun _ => some 0)
    4 ["a", "b", "c"] { parallel_threshold := 1 } [0] rfl

/-- C7: for every sparse output map and vocabulary table, a token absent
from the table is skipped — omitted from the resulting record, with no
error — while each present token contributes its id and weight; the same
per-token rule governs document conversion (`_sparse_vector_to_point`) and
query encoding (`encode_query2vector`); and on vocabulary `{"a": 0}` with
sparse input `{"a": 0.9, "zzz": 0.4}` the result is
`indices = [0], values = [0.9]`. -/
theorem c7_unknown_token_skip (token2id : String → Option Nat)
    (sv : List (String × ℚ)) (doc : String) (doc_id : Nat)
    (model : String → List (String × ℚ)) (query : String)
    (hq : strip_is_empty query = false) (hm : model query = sv) :
    (_sparse_vector_to_point doc sv token2id doc_id).vector.indices
        = (sv.filter (fun tw => (token2id tw.1).isSome)).map
            (fun tw => (token2id tw.1).getD 0) ∧
    (_sparse_vector_to_point doc sv token2id doc_id).vector.values
        = (sv.filter (fun tw => (token2id tw.1).isSome)).map (fun tw => tw.2) ∧
    encode_query2vector model token2id query
        = Except.ok
            { indices := ((sv.filter (fun tw => (token2id tw.1).isSome)).map
                (fun tw => (token2id tw.1).getD 0)),
              values := ((sv.filter (fun tw => (token2id tw.1).isSome)).map
                (fun tw => tw.2)) } ∧
    (_sparse_vector_to_point "d" [("a", (9 : ℚ)/10), ("zzz", (2 : ℚ)/5)]
        (fun t => if t = "a" then some 0 else none) 0).vector
      = { indices := [0], values := [(9 : ℚ)/10] } := by
  have h1 : ¬(query = "") := by
    intro he
    rw [he] at hq
    exact absurd hq (by decide)
  have hcond : (decide (query = "") || strip_is_empty query) = false := by
    rw [decide_eq_false h1, hq]
    rfl
  refine ⟨sparse_point_indices doc sv token2id doc_id,
    sparse_point_values doc sv token2id doc_id, ?_, rfl⟩
  simp only [encode_query2vector, hm, hcond, Bool.false_eq_true, if_false]
  rw [tokenFold_eq]
  simp

/-- Witness for C7 at the spec's concrete example: vocabulary `{"a": 0}`,
sparse input `{"a": 0.9, "zzz": 0.4}`, and the one-word query `"a"`. -/
theorem c7_unknown_token_skip_witness :
    (_sparse_vector_to_point "d" [("a", (9 : ℚ)/10), ("zzz", (2 : ℚ)/5)]
        (fun t => if t = "a" then some 0 else none) 0).vector.indices
      = ([("a", (9 : ℚ)/10), ("zzz", (2 : ℚ)/5)].filter
          (fun tw => ((fun t => if t = "a" then some 0 else none) tw.1).isSome)).map
            (fun tw => ((fun t => if t = "a" then some 0 else none) tw.1).getD 0) ∧
    encode_query2vector (fun _ => [("a", (9 : ℚ)/10), ("zzz", (2 : ℚ)/5)])
        (fun t => if t = "a" then some 0 else none) "a"
      = Except.ok
          { indices := (([("a", (9 : ℚ)/10), ("zzz", (2 : ℚ)/5)].filter
              (fun tw => ((fun t => if t = "a" then some 0 else none) tw.1).isSome)).map
                (fun tw => ((fun t => if t = "a" then some 0 else none) tw.1).getD 0)),
            values := (([("a", (9 : ℚ)/10), ("zzz", (2 : ℚ)/5)].filter
              (fun tw => ((fun t => if t = "a" then some 0 else none) tw.1).isSome)).map
                (fun tw => tw.2)) } ∧
    (_sparse_vector_to_point "d" [("a", (9 : ℚ)/10), ("zzz", (2 : ℚ)/5)]
        (fun t => if t = "a" then some 0 else none) 0).vector
      = { indices := [0], values := [(9 : ℚ)/10] } := by
  have h := c7_unknown_token_skip (fun t => if t = "a" then some 0 else none)
    [("a", (9 : ℚ)/10), ("zzz", (2 : ℚ)/5)] "d" 0
    (fun _ => [("a", (9 : ℚ)/10), ("zzz", (2 : ℚ)/5)]) "a" (by decide) rfl
  exact ⟨h.1, h.2.2.1, h.2.2.2⟩

/-- C8 counterexample: invoking document encoding with an empty document
list is not rejected as invalid input — the source logs a warning and
returns the empty list — so the claim that it raises `InvalidInput` fails at
the concrete input `docs = []`. -/
theorem c8_empty_docs_counterexample :
    encode_documents2points (fun _ => []) (fun _ => none) 4 [] { } []
      = Except.ok [] := rfl

/-- C8 amended: `encode_query2vector` raises `ValueError` for an empty or
whitespace-only query and is not retried; with vocabulary `{"a": 0}`,
`encode_query("a")` returns `indices = [0]`; but an empty document list is
not rejected: `encode_documents2points` logs a warning and returns the empty
list. -/
theorem c8_input_validation_amended
    (model : String → List (String × ℚ)) (token2id : String → Option Nat)
    (query : String) (hq : strip_is_empty query = true) (cpu_count : Nat)
    (config : EncodingConfig) (completion_order : List Nat) :
    encode_query2vector model token2id query
        = Except.error "Query cannot be empty" ∧
    encode_documents2points model token2id cpu_count [] config completion_order
        = Except.ok [] ∧
    encode_query2vector (fun _ => [("a", (1 : ℚ))])
        (fun t => if t = "a" then some 0 else none) "a"
      = Except.ok { indices := [0], values := [(1 : ℚ)] } := by
  have hcond : (decide (query = "") || strip_is_empty query) = true := by
    rw [hq]
    simp
  refine ⟨?_, rfl, rfl⟩
  simp [encode_query2vector, hcond]

/-- Witness for C8's amended claim at the whitespace-only query `"   "`. -/
theorem c8_input_validation_witness :
    encode_query2vector (fun _ => []) (fun _ => none) "   "
        = Except.error "Query cannot be empty" ∧
    encode_documents2points (fun _ => []) (fun _ => none) 4 [] { } []
        = Except.ok [] ∧
    encode_query2vector (fun _ => [("a", (1 : ℚ))])
        (fun t => if t = "a" then some 0 else none) "a"
      = Except.ok { indices := [0], values := [(1 : ℚ)] } :=
  c8_input_validation_amended (fun _ => []) (fun _ => none) "   " (by decide)
    4 { } []

section WriterLemmas

lemma retryLoopGo_result (succ : Nat → Bool) (batch_len : Nat) :
    ∀ (remaining attempt : Nat) (delay : ℚ),
      (retryLoopGo succ batch_len attempt (remaining + 1) delay).result
        = some (if (List.range (remaining + 1)).any (fun j => succ (attempt + j))
            then batch_len else 0) := by
  intro remaining
  induction remaining with
  | zero =>
    intro attempt delay
    simp only [retryLoopGo]
    cases h : succ attempt
    · simp [h]
    · simp [h]
  | succ r ih =>
    intro attempt delay
    have hstep : retryLoopGo succ batch_len attempt (r + 1 + 1) delay
        = if succ attempt then ⟨[], 1, some batch_len⟩
          else if r + 1 = 0 then ⟨[], 1, some 0⟩
          else
            ⟨delay :: (retryLoopGo succ batch_len (attempt + 1) (r + 1)
                (delay * 2)).sleeps,
             (retryLoopGo succ batch_len (attempt + 1) (r + 1)
                (delay * 2)).calls + 1,
             (retryLoopGo succ batch_len (attempt + 1) (r + 1)
                (delay * 2)).result⟩ := rfl
    cases h : succ attempt
    · have hcond : ((List.range (r + 1 + 1)).any (fun j => succ (attempt + j)))
          = ((List.range (r + 1)).any (fun j => succ (attempt + 1 + j))) := by
        rw [List.range_succ_eq_map, List.any_cons, List.any_map]
        simp only [Nat.add_zero, h, Bool.false_or]
        congr 1
        funext j
        simp only [Function.comp_apply, Nat.succ_eq_add_one]
        congr 1
        omega
      rw [hstep, if_neg (by simp [h]), if_neg (Nat.succ_ne_zero r)]
      dsimp only
      rw [ih (attempt + 1) (delay * 2), hcond]
    · have hany : (List.range (r + 1 + 1)).any (fun j => succ (attempt + j)) = true := by
        apply List.any_eq_true.mpr
        exact ⟨0, List.mem_range.mpr (by omega), by simpa using h⟩
      rw [hstep, if_pos (by simp [h])]
      dsimp only
      rw [hany]
      simp

lemma retryLoopGo_allfail (succ : Nat → Bool) (batch_len : Nat) :
    ∀ (remaining attempt : Nat) (delay : ℚ),
      (∀ a, attempt ≤ a → a ≤ attempt + remaining → succ a = false) →
      retryLoopGo succ batch_len attempt (remaining + 1) delay
        = ⟨(List.range remaining).map (fun j => delay * 2 ^ j),
           remaining + 1, some 0⟩ := by
  intro remaining
  induction remaining with
  | zero =>
    intro attempt delay hf
    have h := hf attempt le_rfl (by omega)
    simp [retryLoopGo, h]
  | succ r ih =>
    intro attempt delay hf
    have h := hf attempt le_rfl (by omega)
    have hrec := ih (attempt + 1) (delay * 2)
      (fun a h1 h2 => hf a (by omega) (by omega))
    have hstep : retryLoopGo succ batch_len attempt (r + 1 + 1) delay
        = if succ attempt then ⟨[], 1, some batch_len⟩
          else if r + 1 = 0 then ⟨[], 1, some 0⟩
          else
            ⟨delay :: (retryLoopGo succ batch_len (attempt + 1) (r + 1)
                (delay * 2)).sleeps,
             (retryLoopGo succ batch_len (attempt + 1) (r + 1)
                (delay * 2)).calls + 1,
             (retryLoopGo succ batch_len (attempt + 1) (r + 1)
                (delay * 2)).result⟩ := rfl
    have hmap : (List.range (r + 1)).map (fun j => delay * 2 ^ j)
        = delay :: (List.range r).map (fun j => delay * 2 * 2 ^ j) := by
      rw [List.range_succ_eq_map, List.map_cons, List.map_map]
      congr 1
      · simp
      · apply List.map_congr_left
        intro j _
        simp only [Function.comp_apply, Nat.succ_eq_add_one, pow_succ]
        ring
    rw [hstep, if_neg (by simp [h]), if_neg (Nat.succ_ne_zero r), hrec]
    dsimp only
    rw [hmap]

lemma upsert_batch_result {α : Type} (succ : Nat → Bool) (batch : List α)
    (config : BatchUpsertConfig) (h : 1 ≤ config.max_retries) :
    (_upsert_batch_with_retry succ batch config).result
      = some (if (List.range config.max_retries).any (fun j => succ (j + 1))
          then batch.length else 0) := by
  unfold _upsert_batch_with_retry
  obtain ⟨mr, hmr⟩ : ∃ mr, config.max_retries = mr + 1 :=
    ⟨config.max_retries - 1, by omega⟩
  have hc : ((List.range (mr + 1)).any fun j => succ (1 + j))
      = ((List.range (mr + 1)).any fun j => succ (j + 1)) := by
    congr 1
    funext j
    congr 1
    omega
  rw [hmr, retryLoopGo_result, hc]

lemma upsert_batch_allfail {α : Type} (succ : Nat → Bool) (batch : List α)
    (config : BatchUpsertConfig) (h : 1 ≤ config.max_retries)
    (hf : ∀ a, 1 ≤ a → a ≤ config.max_retries → succ a = false) :
    _upsert_batch_with_retry succ batch config
      = ⟨(List.range (config.max_retries - 1)).map
          (fun j => config.retry_delay_seconds * 2 ^ j),
         config.max_retries, some 0⟩ := by
  unfold _upsert_batch_with_retry
  obtain ⟨mr, hmr⟩ : ∃ mr, config.max_retries = mr + 1 :=
    ⟨config.max_retries - 1, by omega⟩
  rw [hmr, retryLoopGo_allfail succ batch.length mr 1 config.retry_delay_seconds
    (fun a h1 h2 => hf a h1 (by omega))]
  rfl

lemma upsert_batch_zero_retries {α : Type} (succ : Nat → Bool) (batch : List α)
    (config : BatchUpsertConfig) (h : config.max_retries = 0) :
    (_upsert_batch_with_retry succ batch config).result = none := by
  unfold _upsert_batch_with_retry
  rw [h]
  rfl

lemma upsert_fold_some {α : Type} (succ : Nat → Nat → Bool) (points : List α)
    (config : BatchUpsertConfig) (h : 1 ≤ config.max_retries) :
    ∀ (idxs : List Nat) (t0 : Nat),
      idxs.foldl
        (fun total batch_idx =>
          match total,
              (_upsert_batch_with_retry (succ batch_idx)
                ((points.drop (batch_idx * config.batch_size)).take config.batch_size)
                config).result with
          | some t, some u => some (t + u)
          | _, _ => none)
        (some t0)
      = some (t0 + (idxs.map
          (fun i => if batchSucceeds succ config i then
            ((points.drop (i * config.batch_size)).take config.batch_size).length
          else 0)).sum) := by
  intro idxs
  induction idxs with
  | nil => intro t0; simp
  | cons i is ih =>
    intro t0
    rw [List.foldl_cons, upsert_batch_result (succ i) _ config h]
    show is.foldl _ (some (t0 + _)) = _
    rw [ih]
    rw [List.map_cons, List.sum_cons]
    congr 1
    rw [batchSucceeds]
    omega

lemma upsert_fold_none {α : Type} (succ : Nat → Nat → Bool) (points : List α)
    (config : BatchUpsertConfig) :
    ∀ (idxs : List Nat),
      idxs.foldl
        (fun total batch_idx =>
          match total,
              (_upsert_batch_with_retry (succ batch_idx)
                ((points.drop (batch_idx * config.batch_size)).take config.batch_size)
                config).result with
          | some t, some u => some (t + u)
          | _, _ => none)
        none
      = none := by
  intro idxs
  induction idxs with
  | nil => rfl
  | cons i is ih =>
    rw [List.foldl_cons]
    exact ih

lemma upsert_points_batched_eq {α : Type} (succ : Nat → Nat → Bool)
    (points : List α) (config : BatchUpsertConfig) (h : 1 ≤ config.max_retries) :
    upsert_points_batched succ points config
      = some (((List.range
          ((points.length + config.batch_size - 1) / config.batch_size)).map
            (fun i => if batchSucceeds succ config i then
              ((points.drop (i * config.batch_size)).take config.batch_size).length
            else 0)).sum) := by
  unfold upsert_points_batched
  by_cases hemp : points.isEmpty
  · rw [if_pos hemp, List.isEmpty_iff.mp hemp]
    have hz : ((([] : List α).length + config.batch_size - 1) / config.batch_size)
        = 0 := by
      rcases Nat.eq_zero_or_pos config.batch_size with h0 | h0
      · simp [h0]
      · simp only [List.length_nil]
        exact Nat.div_eq_of_lt (by omega)
    rw [hz]
    rfl
  · rw [if_neg hemp, upsert_fold_some succ points config h (List.range _) 0]
    rw [Nat.zero_add]

lemma chunks_flatten {α : Type} :
    ∀ (n : Nat) (l : List α), l.length = n → ∀ (B : Nat), 0 < B →
      ((List.range ((l.length + B - 1) / B)).map
        (fun i => (l.drop (i * B)).take B)).flatten = l := by
  intro n
  induction n using Nat.strong_induction_on with
  | _ n ih =>
    intro l hl B hB
    rcases Nat.eq_zero_or_pos n with hn | hn
    · subst hn
      have hnil : l = [] := List.length_eq_zero.mp hl
      subst hnil
      have hdiv : (([] : List α).length + B - 1) / B = 0 := by
        simp only [List.length_nil]
        exact Nat.div_eq_of_lt (by omega)
      rw [hdiv]
      rfl
    · have hk : (l.length + B - 1) / B = ((l.drop B).length + B - 1) / B + 1 := by
        rw [List.length_drop]
        exact ceil_div_succ l.length B (by omega) hB
      rw [hk, List.range_succ_eq_map]
      simp only [List.map_cons, List.flatten_cons, List.map_map]
      have hmaps : (List.range (((l.drop B).length + B - 1) / B)).map
          ((fun i => (l.drop (i * B)).take B) ∘ Nat.succ)
          = (List.range (((l.drop B).length + B - 1) / B)).map
            (fun i => ((l.drop B).drop (i * B)).take B) := by
        apply List.map_congr_left
        intro j _
        simp only [Function.comp_apply]
        have harg : B + j * B = Nat.succ j * B := by
          rw [Nat.succ_mul]
          omega
        rw [List.drop_drop, harg]
      rw [hmaps, ih (l.drop B).length (by rw [List.length_drop]; omega) (l.drop B)
        rfl B hB]
      rw [Nat.zero_mul, List.drop_zero, List.take_append_drop]

lemma ceil_bounds (N B : Nat) (hN : 1 ≤ N) (hB : 1 ≤ B) :
    ((N + B - 1) / B - 1) * B < N ∧ N ≤ ((N + B - 1) / B) * B := by
  have h1 := Nat.div_add_mod (N + B - 1) B
  have h2 : (N + B - 1) % B < B := Nat.mod_lt _ (by omega)
  obtain ⟨p, hp⟩ : ∃ p, (N + B - 1) / B = p + 1 := by
    refine ⟨(N + B - 1) / B - 1, ?_⟩
    have hq1 : 0 < (N + B - 1) / B := Nat.div_pos (by omega) (by omega)
    omega
  rw [hp] at h1 ⊢
  rw [Nat.mul_succ] at h1
  simp only [Nat.add_sub_cancel]
  rw [Nat.succ_mul]
  rw [Nat.mul_comm B p] at h1
  omega

lemma slices_length_sum {α : Type} (points : List α) (B : Nat) (hB : 0 < B) :
    ((List.range ((points.length + B - 1) / B)).map
      (fun i => ((points.drop (i * B)).take B).length)).sum = points.length := by
  have h := congrArg List.length (chunks_flatten points.length points rfl B hB)
  rw [List.length_flatten, List.map_map] at h
  simpa [Function.comp_def] using h

end WriterLemmas

/-- C2 counterexample: the source's retry helper catches every `Exception`
alike and never classifies an error as permanent, so a batch whose upsert
fails with a permanent error on every attempt (here: an always-failing
upsert, `succ = fun _ => false`) is retried anyway under the default
configuration (`max_retries = 3`): three attempts are made and two backoff
sleeps occur, refuting fail-fast (one attempt, no sleeps). -/
theorem c2_fail_fast_counterexample :
    (_upsert_batch_with_retry (fun _ => false) ([0] : List Nat) { }).calls = 3 ∧
    (_upsert_batch_with_retry (fun _ => false) ([0] : List Nat) { }).sleeps
      = [1, 2] ∧
    ¬((_upsert_batch_with_retry (fun _ => false) ([0] : List Nat) { }).calls ≤ 1 ∧
      (_upsert_batch_with_retry (fun _ => false) ([0] : List Nat) { }).sleeps
        = []) := by
  have h : _upsert_batch_with_retry (fun _ => false) ([0] : List Nat) { }
      = ⟨[1, 1 * 2], 3, some 0⟩ := rfl
  refine ⟨by rw [h], by rw [h]; norm_num, ?_⟩
  rw [h]
  rintro ⟨h1, -⟩
  dsimp only at h1
  omega

/-- C2 amended: the writer performs no transient/permanent classification:
every failing upsert call — a permanently failing batch included — is
retried with a backoff sleep between attempts until `max_retries` attempts
have been made, and only then is the batch marked failed (returns 0). -/
theorem c2_no_fail_fast_amended {α : Type} (succ : Nat → Bool)
    (batch : List α) (config : BatchUpsertConfig)
    (hr : 1 ≤ config.max_retries)
    (hf : ∀ a, 1 ≤ a → a ≤ config.max_retries → succ a = false) :
    (_upsert_batch_with_retry succ batch config).calls = config.max_retries ∧
    (_upsert_batch_with_retry succ batch config).result = some 0 ∧
    (_upsert_batch_with_retry succ batch config).sleeps.length
      = config.max_retries - 1 := by
  rw [upsert_batch_allfail succ batch config hr hf]
  refine ⟨rfl, rfl, ?_⟩
  simp

/-- Witness for C2's amended claim: an always-failing batch with
`max_retries = 4` gets 4 upsert attempts, 3 sleeps, and is then marked
failed. -/
theorem c2_no_fail_fast_witness :
    (_upsert_batch_with_retry (fun _ => false) ([0] : List Nat)
        { max_retries := 4 }).calls = 4 ∧
    (_upsert_batch_with_retry (fun _ => false) ([0] : List Nat)
        { max_retries := 4 }).result = some 0 ∧
    (_upsert_batch_with_retry (fun _ => false) ([0] : List Nat)
        { max_retries := 4 }).sleeps.length = 4 - 1 :=
  c2_no_fail_fast_amended (fun _ => false) [0] { max_retries := 4 } (by decide)
    (fun _ _ _ => rfl)

/-- C3: the batched writer never raises for partial failure: with
`max_retries ≥ 1` (and a positive batch size, without which the source
divides by zero) it always returns a total, a batch that exhausts its
retries contributes 0, processing continues with the next batch, and the
returned total is exactly the sum of `len(batch)` over the batches whose
upsert call succeeded on some attempt. -/
theorem c3_writer_never_raises {α : Type} (succ : Nat → Nat → Bool)
    (points : List α) (config : BatchUpsertConfig)
    (hr : 1 ≤ config.max_retries) (_hb : 1 ≤ config.batch_size) :
    upsert_points_batched succ points config
      = some (((List.range
          ((points.length + config.batch_size - 1) / config.batch_size)).map
            (fun i => if batchSucceeds succ config i then
              ((points.drop (i * config.batch_size)).take config.batch_size).length
            else 0)).sum) :=
  upsert_points_batched_eq succ points config hr

/-- Witness for C3: five points in batches of two with `max_retries = 2`;
batch 1 fails permanently on every attempt while batches 0 and 2 succeed,
so the writer returns 2 + 0 + 1 = 3 without raising. -/
theorem c3_writer_never_raises_witness :
    upsert_points_batched (fun b _ => decide (b ≠ 1)) ([0, 1, 2, 3, 4] : List Nat)
        { batch_size := 2, max_retries := 2 } = some 3 :=
  (c3_writer_never_raises (fun b _ => decide (b ≠ 1)) ([0, 1, 2, 3, 4] : List Nat)
    { batch_size := 2, max_retries := 2 } (by decide) (by decide)).trans (by decide)

/-- C4: on repeated failure of a batch's upsert call, the sleep before
attempt `k+1` equals `retry_delay_seconds * 2^(k-1)`, and the writer makes
exactly `max_retries` upsert attempts for that batch before marking it
failed — never more. -/
theorem c4_backoff_schedule {α : Type} (succ : Nat → Bool) (batch : List α)
    (config : BatchUpsertConfig) (hr : 1 ≤ config.max_retries)
    (hf : ∀ a, 1 ≤ a → a ≤ config.max_retries → succ a = false) :
    (_upsert_batch_with_retry succ batch config).calls = config.max_retries ∧
    (_upsert_batch_with_retry succ batch config).result = some 0 ∧
    (_upsert_batch_with_retry succ batch config).sleeps
      = (List.range (config.max_retries - 1)).map
          (fun j => config.retry_delay_seconds * 2 ^ j) ∧
    ∀ k, 1 ≤ k → k + 1 ≤ config.max_retries →
      (_upsert_batch_with_retry succ batch config).sleeps[k - 1]?
        = some (config.retry_delay_seconds * 2 ^ (k - 1)) := by
  rw [upsert_batch_allfail succ batch config hr hf]
  refine ⟨rfl, rfl, rfl, ?_⟩
  intro k h1 h2
  rw [List.getElem?_map, List.getElem?_range (by omega)]
  rfl

/-- Witness for C4 at the default configuration (`max_retries = 3`,
`retry_delay_seconds = 1`): an always-failing batch gets exactly 3 attempts,
sleeps `[1 * 2^0, 1 * 2^1]`, and the sleep before attempt 3 (k = 2) is
`1 * 2^1`. -/
theorem c4_backoff_schedule_witness :
    (_upsert_batch_with_retry (fun _ => false) ([0] : List Nat) { }).calls = 3 ∧
    (_upsert_batch_with_retry (fun _ => false) ([0] : List Nat) { }).result
      = some 0 ∧
    (_upsert_batch_with_retry (fun _ => false) ([0] : List Nat) { }).sleeps
      = (List.range (3 - 1)).map (fun j => (1 : ℚ) * 2 ^ j) ∧
    (_upsert_batch_with_retry (fun _ => false) ([0] : List Nat) { }).sleeps[2 - 1]?
      = some ((1 : ℚ) * 2 ^ (2 - 1)) := by
  have h := c4_backoff_schedule (fun _ => false) ([0] : List Nat) { } (by decide)
    (fun _ _ _ => rfl)
  exact ⟨h.1, h.2.1, h.2.2.1, h.2.2.2 2 (by decide) (by decide)⟩

/-- C6: for every non-empty list of `N` points and `batch_size = B ≥ 1`, the
writer's loop slices the points into exactly `ceil(N/B)` contiguous batches
in input order (their concatenation is the input), whose sizes sum to `N`,
each of size `B` except the last, which has size `N mod B` (or `B` when `B`
divides `N`). -/
theorem c6_batch_partition {α : Type} (points : List α) (B : Nat)
    (hne : points ≠ []) (hB : 1 ≤ B) :
    (writerBatches points B).length = (points.length + B - 1) / B ∧
    (writerBatches points B).flatten = points ∧
    ((writerBatches points B).map List.length).sum = points.length ∧
    ∀ i b, (writerBatches points B)[i]? = some b →
      b.length = if i + 1 = (points.length + B - 1) / B then
          (if points.length % B = 0 then B else points.length % B)
        else B := by
  have hN : 1 ≤ points.length := List.length_pos.mpr hne
  have hflat : (writerBatches points B).flatten = points :=
    chunks_flatten points.length points rfl B (by omega)
  refine ⟨by simp [writerBatches], hflat, ?_, ?_⟩
  · have h := congrArg List.length hflat
    rw [List.length_flatten] at h
    exact h
  · intro i b hib
    unfold writerBatches at hib
    rw [List.getElem?_map] at hib
    by_cases hik : i < (points.length + B - 1) / B
    · rw [List.getElem?_range hik] at hib
      have hb : b = (points.drop (i * B)).take B := by
        injection hib with hib
        exact hib.symm
      subst hb
      rw [List.length_take, List.length_drop]
      obtain ⟨hlow, hhigh⟩ := ceil_bounds points.length B hN hB
      by_cases hlast : i + 1 = (points.length + B - 1) / B
      · rw [if_pos hlast]
        have hi : i = (points.length + B - 1) / B - 1 := by omega
        have e1 : (i + 1) * B = i * B + B := Nat.succ_mul i B
        have e2 : ((points.length + B - 1) / B - 1) * B = i * B := by rw [← hi]
        have e3 : ((points.length + B - 1) / B) * B = (i + 1) * B := by
          rw [← hlast]
        rw [e2] at hlow
        rw [e3, e1] at hhigh
        have hmod : points.length % B = (points.length - i * B) % B := by
          have hsplit : points.length = B * i + (points.length - i * B) := by
            have e4 : B * i = i * B := Nat.mul_comm B i
            omega
          conv_lhs => rw [hsplit]
          rw [Nat.mul_add_mod]
        by_cases hr : points.length - i * B = B
        · rw [hr] at hmod ⊢
          rw [Nat.mod_self] at hmod
          rw [if_pos hmod, Nat.min_self]
        · have hrlt : points.length - i * B < B := by omega
          rw [Nat.mod_eq_of_lt hrlt] at hmod
          rw [if_neg (by omega), ← hmod]
          exact Nat.min_eq_right (by omega)
      · rw [if_neg hlast]
        have e1 : (i + 1) * B = i * B + B := Nat.succ_mul i B
        have e2 : (i + 1) * B ≤ ((points.length + B - 1) / B - 1) * B :=
          Nat.mul_le_mul_right B (by omega)
        exact Nat.min_eq_left (by omega)
    · have hnone : (List.range ((points.length + B - 1) / B))[i]? = none := by
        apply List.getElem?_eq_none
        simpa [List.length_range] using Nat.le_of_not_lt hik
      rw [hnone] at hib
      cases hib

/-- Witness for C6: five points with `B = 2` give 3 batches `[0,1] [2,3] [4]`
whose concatenation is the input, and the last batch has size `5 mod 2 = 1`. -/
theorem c6_batch_partition_witness :
    (writerBatches ([0, 1, 2, 3, 4] : List Nat) 2).length = 3 ∧
    (writerBatches ([0, 1, 2, 3, 4] : List Nat) 2).flatten = [0, 1, 2, 3, 4] ∧
    ([4] : List Nat).length
      = (if 2 + 1 = (([0, 1, 2, 3, 4] : List Nat).length + 2 - 1) / 2 then
          (if ([0, 1, 2, 3, 4] : List Nat).length % 2 = 0 then 2
            else ([0, 1, 2, 3, 4] : List Nat).length % 2)
        else 2) := by
  have h := c6_batch_partition ([0, 1, 2, 3, 4] : List Nat) 2 (by decide) (by decide)
  exact ⟨h.1.trans (by decide), h.2.1, h.2.2.2 2 [4] (by decide)⟩

/-- C10: the writer yields an all-or-nothing per-batch count, with the total
between 0 and `len(points)`, only under the precondition `max_retries ≥ 1`;
with `max_retries = 0` and non-empty points, the helper's attempt loop never
runs, it implicitly returns `None`, and the caller's `total += None` fails
instead of returning a total (modelled as `none`). -/
theorem c10_zero_retries_hole {α : Type} (succ : Nat → Nat → Bool)
    (points : List α) (config : BatchUpsertConfig) :
    (1 ≤ config.max_retries → 1 ≤ config.batch_size →
      upsert_points_batched succ points config
        = some (((List.range
            ((points.length + config.batch_size - 1) / config.batch_size)).map
              (fun i => if batchSucceeds succ config i then
                ((points.drop (i * config.batch_size)).take
                  config.batch_size).length
              else 0)).sum) ∧
      ((List.range
          ((points.length + config.batch_size - 1) / config.batch_size)).map
            (fun i => if batchSucceeds succ config i then
              ((points.drop (i * config.batch_size)).take
                config.batch_size).length
            else 0)).sum ≤ points.length) ∧
    (config.max_retries = 0 → points ≠ [] → 1 ≤ config.batch_size →
      upsert_points_batched succ points config = none) := by
  constructor
  · intro hr hb
    refine ⟨upsert_points_batched_eq succ points config hr, ?_⟩
    calc ((List.range
          ((points.length + config.batch_size - 1) / config.batch_size)).map
            (fun i => if batchSucceeds succ config i then
              ((points.drop (i * config.batch_size)).take
                config.batch_size).length
            else 0)).sum
        ≤ ((List.range
            ((points.length + config.batch_size - 1) / config.batch_size)).map
              (fun i => ((points.drop (i * config.batch_size)).take
                config.batch_size).length)).sum := by
          apply List.sum_le_sum
          intro i _
          split
          · exact le_rfl
          · exact Nat.zero_le _
      _ = points.length := slices_length_sum points config.batch_size (by omega)
  · intro h0 hne hb
    unfold upsert_points_batched
    rw [if_neg (fun hh => hne (List.isEmpty_iff.mp hh))]
    obtain ⟨p, hp⟩ : ∃ p,
        (points.length + config.batch_size - 1) / config.batch_size = p + 1 := by
      have hlen : 0 < points.length := List.length_pos.mpr hne
      have hpos : 0 < (points.length + config.batch_size - 1) / config.batch_size :=
        Nat.div_pos (by omega) (by omega)
      exact ⟨(points.length + config.batch_size - 1) / config.batch_size - 1,
        by omega⟩
    rw [hp]
    show (List.range (p + 1)).foldl _ (some 0) = none
    rw [List.range_succ_eq_map, List.foldl_cons,
      upsert_batch_zero_retries (succ 0) _ config h0]
    show ((List.range p).map Nat.succ).foldl _ none = none
    exact upsert_fold_none succ points config ((List.range p).map Nat.succ)

/-- Witness for C10: with `max_retries = 1` three points in batches of two
give total 3; with `max_retries = 0` the same call yields no total. -/
theorem c10_zero_retries_witness :
    upsert_points_batched (fun _ _ => true) ([7, 8, 9] : List Nat)
        { batch_size := 2, max_retries := 1 } = some 3 ∧
    upsert_points_batched (fun _ _ => true) ([7, 8, 9] : List Nat)
        { batch_size := 2, max_retries := 0 } = none := by
  have ha := (c10_zero_retries_hole (fun _ _ => true) ([7, 8, 9] : List Nat)
    { batch_size := 2, max_retries := 1 }).1 (by decide) (by decide)
  have hb := (c10_zero_retries_hole (fun _ _ => true) ([7, 8, 9] : List Nat)
    { batch_size := 2, max_retries := 0 }).2 rfl (by decide) (by decide)
  exact ⟨ha.1.trans (by decide), hb⟩

section CacheLemmas

/-- Internal invariant of the vocabulary cache state: the invocation log has
no duplicate model identifier, and an identifier is cached exactly when it
appears in the log. -/
def CacheInv {τ : Type} (s : CacheState τ) : Prop :=
  s.loads.Nodup ∧ ∀ m, (lookupCache s.cache m).isSome = true ↔ m ∈ s.loads

lemma runCalls_spec {τ : Type} (loader : Nat → τ) :
    ∀ (ms : List String) (s : CacheState τ), CacheInv s →
      CacheInv ((runCalls loader ms s).2) ∧
      (∀ m, m ∈ ((runCalls loader ms s).2).loads ↔ m ∈ s.loads ∨ m ∈ ms) ∧
      (∀ m v, lookupCache s.cache m = some v →
        lookupCache ((runCalls loader ms s).2).cache m = some v) ∧
      (∀ (i : Nat) (m : String), ms[i]? = some m →
        ∃ v, ((runCalls loader ms s).1)[i]? = some v ∧
          lookupCache ((runCalls loader ms s).2).cache m = some v) := by
  intro ms
  induction ms with
  | nil =>
    intro s hs
    refine ⟨hs, by simp [runCalls], by intro m v hv; simpa [runCalls] using hv, ?_⟩
    intro i m hi
    simp at hi
  | cons m ms ih =>
    intro s hs
    cases hcache : lookupCache s.cache m with
    | some t =>
      have hstep : runCalls loader (m :: ms) s
          = ((t : τ) :: (runCalls loader ms s).1, (runCalls loader ms s).2) := by
        simp [runCalls, get_cached_token2id, hcache]
      obtain ⟨ih1, ih2, ih3, ih4⟩ := ih s hs
      rw [hstep]
      refine ⟨ih1, ?_, ih3, ?_⟩
      · intro m0
        rw [ih2 m0]
        constructor
        · rintro (h | h)
          · exact Or.inl h
          · exact Or.inr (List.mem_cons_of_mem m h)
        · rintro (h | h)
          · exact Or.inl h
          · rcases List.mem_cons.mp h with h | h
            · refine Or.inl ((hs.2 _).mp ?_)
              rw [h, hcache]
              rfl
            · exact Or.inr h
      · intro i m0 hi
        cases i with
        | zero =>
          rw [List.getElem?_cons_zero] at hi
          injection hi with hi
          refine ⟨t, List.getElem?_cons_zero, ?_⟩
          rw [← hi]
          exact ih3 m t hcache
        | succ j =>
          rw [List.getElem?_cons_succ] at hi
          obtain ⟨v, hv1, hv2⟩ := ih4 j m0 hi
          exact ⟨v, by rw [List.getElem?_cons_succ]; exact hv1, hv2⟩
    | none =>
      have hnotmem : m ∉ s.loads := by
        intro hmm
        have h2 := (hs.2 m).mpr hmm
        rw [hcache] at h2
        simp at h2
      have hstep : runCalls loader (m :: ms) s
          = (loader s.loads.length ::
              (runCalls loader ms
                ⟨(m, loader s.loads.length) :: s.cache, s.loads ++ [m]⟩).1,
             (runCalls loader ms
                ⟨(m, loader s.loads.length) :: s.cache, s.loads ++ [m]⟩).2) := by
        simp [runCalls, get_cached_token2id, hcache]
      have hs1inv : CacheInv (⟨(m, loader s.loads.length) :: s.cache,
          s.loads ++ [m]⟩ : CacheState τ) := by
        constructor
        · refine List.Nodup.append hs.1 (List.nodup_singleton m) ?_
          intro x hx hy
          rw [List.mem_singleton] at hy
          subst hy
          exact hnotmem hx
        · intro m0
          by_cases hm0 : m = m0
          · subst hm0
            simp [lookupCache]
          · simp only [lookupCache]
            rw [if_neg hm0]
            rw [hs.2 m0]
            simp only [List.mem_append, List.mem_singleton]
            constructor
            · exact fun h => Or.inl h
            · rintro (h | h)
              · exact h
              · exact absurd h.symm hm0
      obtain ⟨ih1, ih2, ih3, ih4⟩ := ih ⟨(m, loader s.loads.length) :: s.cache,
        s.loads ++ [m]⟩ hs1inv
      rw [hstep]
      refine ⟨ih1, ?_, ?_, ?_⟩
      · intro m0
        rw [ih2 m0]
        simp only [List.mem_append, List.mem_singleton, List.mem_cons]
        tauto
      · intro m0 v hv
        have hne : m ≠ m0 := by
          intro e
          rw [e, hv] at hcache
          cases hcache
        apply ih3
        simp only [lookupCache]
        rw [if_neg hne]
        exact hv
      · intro i m0 hi
        cases i with
        | zero =>
          rw [List.getElem?_cons_zero] at hi
          injection hi with hi
          have hl : lookupCache ((m, loader s.loads.length) :: s.cache) m
              = some (loader s.loads.length) := by
            simp [lookupCache]
          refine ⟨loader s.loads.length, List.getElem?_cons_zero, ?_⟩
          rw [← hi]
          exact ih3 m _ hl
        | succ j =>
          rw [List.getElem?_cons_succ] at hi
          obtain ⟨v, hv1, hv2⟩ := ih4 j m0 hi
          exact ⟨v, by rw [List.getElem?_cons_succ]; exact hv1, hv2⟩

end CacheLemmas

/-- C5: over any serialized history of `get_cached_token2id` calls (the
source holds `_cache_lock` across the whole check-and-populate sequence, so
every concurrent interleaving is some such serialization, starting from the
empty process-wide cache), the vocabulary loader (`tokenizer.get_vocab`) is
invoked exactly once for each model identifier that is requested at least
once — the invocation log counts it once, and never counts an unrequested
identifier — and every call for the same identifier (first and subsequent)
returns the same cached table. -/
theorem c5_single_flight_cache {τ : Type} (loader : Nat → τ) (ms : List String) :
    (∀ m, ((runCalls loader ms ⟨[], []⟩).2).loads.count m
        = if m ∈ ms then 1 else 0) ∧
    (∀ (i j : Nat) (m : String), ms[i]? = some m → ms[j]? = some m →
      ((runCalls loader ms ⟨[], []⟩).1)[i]?
        = ((runCalls loader ms ⟨[], []⟩).1)[j]?) := by
  have hinv0 : CacheInv (⟨[], []⟩ : CacheState τ) := by
    constructor
    · exact List.nodup_nil
    · intro m
      simp [lookupCache]
  obtain ⟨hinv, hmem, hstab, hres⟩ := runCalls_spec loader ms ⟨[], []⟩ hinv0
  constructor
  · intro m
    by_cases hm : m ∈ ms
    · rw [if_pos hm]
      exact List.count_eq_one_of_mem hinv.1 ((hmem m).mpr (Or.inr hm))
    · rw [if_neg hm]
      apply List.count_eq_zero.mpr
      intro hmm
      rcases (hmem m).mp hmm with h | h
      · cases h
      · exact hm h
  · intro i j m hi hj
    obtain ⟨v1, hv1, hl1⟩ := hres i m hi
    obtain ⟨v2, hv2, hl2⟩ := hres j m hj
    rw [hl1] at hl2
    injection hl2 with hl2
    rw [hv1, hv2, hl2]

/-- Witness for C5: three calls with identifiers `["m1", "m2", "m1"]` and a
loader returning its invocation number: `"m1"` is loaded exactly once, an
unrequested identifier is never loaded, and the first and third calls
return the same table. -/
theorem c5_single_flight_witness :
    ((runCalls (fun k => k) ["m1", "m2", "m1"] ⟨[], []⟩).2).loads.count "m1"
        = 1 ∧
    ((runCalls (fun k => k) ["m1", "m2", "m1"] ⟨[], []⟩).2).loads.count "zz"
        = 0 ∧
    ((runCalls (fun k => k) ["m1", "m2", "m1"] ⟨[], []⟩).1)[0]?
      = ((runCalls (fun k => k) ["m1", "m2", "m1"] ⟨[], []⟩).1)[2]? := by
  have h := c5_single_flight_cache (fun k => k) ["m1", "m2", "m1"]
  exact ⟨(h.1 "m1").trans (if_pos (by decide)),
    (h.1 "zz").trans (if_neg (by decide)),
    h.2 0 2 "m1" rfl rfl⟩

end SpladeQdrant
